import Mathlib

/-!
Shallow embedding of the lingua-wave pipeline core
(src/audio_translator.py and src/main.py).

Text is modelled as `List Char`.  The fallible external collaborators
(translation backend, speech synthesis backend, ffmpeg concatenation)
are modelled as oracles passed to the embedded functions; `none` or
`false` from an oracle models the corresponding Python call raising.
Filesystem effects of the synthesis stage are modelled by recording, in
a `TtsOutcome` structure, which temporary files the call created and
which of them are still present when the call returns or raises.
-/

namespace LinguaWave

/-- Texts are lists of characters. -/
abbrev Str := List Char

/-- Coerce a Lean string literal into our character-list texts. -/
def strOf (s : String) : Str := s.toList

/-- The characters stripped by Python `str.strip()` (ASCII whitespace). -/
def isSpacePy (c : Char) : Bool :=
  c = ' ' || c = '\t' || c = '\n' || c = '\r' || c = Char.ofNat 11 || c = Char.ofNat 12

/-- Python `s.strip()`: remove leading and trailing whitespace. -/
def pyStrip (s : Str) : Str :=
  ((s.dropWhile isSpacePy).reverse.dropWhile isSpacePy).reverse

/-- The literal sentence delimiter `". "` used by `translate_text`
(`text.split('. ')` at src/audio_translator.py line 52, src/main.py line 188). -/
def sentenceDelim : Str := ['.', ' ']

/-- Embedding of Python `text.split('. ')`: split on the literal two-character
delimiter `". "`, scanning left to right, non-overlapping.  Always returns at
least one (possibly empty) part, exactly like Python `str.split` with an
explicit separator. -/
def splitSentences : Str → List Str
  | [] => [[]]
  | [c] => [[c]]
  | c1 :: c2 :: rest =>
    if c1 = '.' ∧ c2 = ' ' then [] :: splitSentences rest
    else (c1 :: (splitSentences (c2 :: rest)).headI) :: (splitSentences (c2 :: rest)).tail

/-- Embedding of Python `'. '.join(parts)`. -/
def joinWith (sep : Str) : List Str → Str
  | [] => []
  | [s] => s
  | s :: rest => s ++ sep ++ joinWith sep rest

/-- Number of occurrences of the delimiter `". "`, counted the way the
left-to-right split encounters them. -/
def countDelim : Str → Nat
  | [] => 0
  | [_] => 0
  | c1 :: c2 :: rest =>
    if c1 = '.' ∧ c2 = ' ' then countDelim rest + 1 else countDelim (c2 :: rest)

/-- Number of positions at which the delimiter `". "` occurs as a substring
(stated from the claim's words, independently of the split recursion): the
number of suffixes of `s` that start with `". "`. -/
def countOcc (s : Str) : Nat :=
  (s.tails.filter (fun t => t.take 2 = sentenceDelim)).length

/-- Embedding of the per-sentence loop of `translate_text`
(src/audio_translator.py lines 55-69, src/main.py lines 191-205).
`tr` is the oracle for `GoogleTranslator(...).translate(sentence)`;
`tr s = none` models that call raising.  Whitespace-only parts are skipped
(`if not sentence.strip(): continue`); on a failed call the original
sentence is appended instead (the per-segment fallback). -/
def processSegments (tr : Str → Option Str) : List Str → List Str
  | [] => []
  | s :: rest =>
    if pyStrip s = [] then processSegments tr rest
    else (tr s).getD s :: processSegments tr rest

/-- The non-blank sentence segments actually processed by `translate_text`
(`SplitForTranslation` of the spec). -/
def keptSegments (text : Str) : List Str :=
  (splitSentences text).filter (fun s => !(pyStrip s).isEmpty)

/-- The list `translated_sentences` built by the loop of `translate_text`. -/
def translatedSegments (tr : Str → Option Str) (text : Str) : List Str :=
  processSegments tr (splitSentences text)

/-- Embedding of `translate_text` (src/audio_translator.py lines 38-74,
src/main.py lines 180-214): split on `". "`, translate each non-blank
segment with per-segment fallback, rejoin with `". "`. -/
def translate_text (tr : Str → Option Str) (text : Str) : Str :=
  joinWith sentenceDelim (translatedSegments tr text)

/-- Embedding of the chunking list comprehension
`[text[i:i+max_chunk_size] for i in range(0, len(text), max_chunk_size)]`
(src/audio_translator.py line 89, src/main.py line 225):
successive slices of at most `cap` characters; an empty text yields no
chunks.  (`range` with step 0 raises in Python; `cap = 0` is modelled as
producing no chunks and is outside every claim, which assume `0 < cap`.) -/
def chunksOf (cap : Nat) (s : Str) : List Str :=
  if h1 : cap = 0 then []
  else if h2 : s = [] then []
  else s.take cap :: chunksOf cap (s.drop cap)
termination_by s.length
decreasing_by
  simp only [List.length_drop]
  have hp : 0 < s.length := List.length_pos.mpr h2
  omega

/-- The decimal digit character for `d`, as produced by Python string
formatting of a nonnegative integer. -/
def digitChar (d : Nat) : Char := Char.ofNat (48 + d)

/-- Decimal representation of a natural number, as produced by Python
f-string formatting (`f"{i}"`). -/
def natRepr (n : Nat) : Str :=
  if n < 10 then [digitChar n]
  else natRepr (n / 10) ++ [digitChar (n % 10)]
decreasing_by
  exact Nat.div_lt_self (by omega) (by omega)

/-- Temporary chunk filename in the CLI path:
`f"temp_{i}.mp3"` (src/audio_translator.py line 94). -/
def tempName_cli (i : Nat) : Str :=
  strOf ("temp_") ++ natRepr i ++ strOf (".mp3")

/-- Temporary chunk filename used by a CLI pipeline run executing in a
process with id `pid`: the code at src/audio_translator.py line 94 does not
use any process or run identifier, so the name is the same for every run. -/
def cliRunTempName (pid : Nat) (i : Nat) : Str := tempName_cli i

/-- Temporary chunk filename in the service path:
`f"temp_{i}_{os.getpid()}.mp3"` (src/main.py line 230). -/
def tempName_srv (pid : Nat) (i : Nat) : Str :=
  strOf ("temp_") ++ natRepr i ++ ['_'] ++ natRepr pid ++ strOf (".mp3")

/-- Error exit of the embedded `text_to_speech`: either the synthesis
collaborator (`gTTS(...).save`) raised while producing chunk `i`, or the
single-chunk branch evaluated `temp_files[0]` on an empty list
(`IndexError`). -/
inductive SynthErr where
  | ttsFailed (i : Nat)
  | indexError
deriving DecidableEq

/-- Observable outcome of one `text_to_speech` call: whether it raised,
which temporary chunk files it created, which temporary files are still on
disk after it returned or raised, whether a concatenation manifest was
created / remains, whether the final artifact was written at `outputPath`,
and which of the two assembly branches ran. -/
structure TtsOutcome where
  err : Option SynthErr
  created : List Str
  tempLeft : List Str
  manifestCreated : Bool
  manifestLeft : Bool
  outputWritten : Bool
  renamed : Bool
  ranConcat : Bool

/-- Embedding of the chunk-synthesis loop of `text_to_speech`
(src/audio_translator.py lines 92-98, src/main.py lines 228-234).
`tts i c = false` models `gTTS(text=c, ...).save(...)` raising on the
call for chunk `i`; the loop then stops with the files created so far
left on disk.  Returns the created filenames and whether all saves
succeeded. -/
def saveChunks (tts : Nat → Str → Bool) (names : Nat → Str) : Nat → List Str → List Str × Bool
  | _, [] => ([], true)
  | i, c :: cs =>
    if tts i c then
      (names i :: (saveChunks tts names (i + 1) cs).1,
       (saveChunks tts names (i + 1) cs).2)
    else ([], false)

/-- Embedding of `text_to_speech` (src/audio_translator.py lines 76-121,
src/main.py lines 216-263; the two differ only in the temp-file naming
scheme, passed here as `names`, and in `os.path.exists` guards that do not
change the outcome).  `ffmpegOk` models the exit status of the
`os.system("ffmpeg ...")` concatenation call — the code ignores it, but it
determines whether `outputPath` was produced.  An exception from a chunk
save propagates (`err = some (ttsFailed i)`) with the previously created
chunk files still on disk; the multi-chunk branch writes the manifest, runs
ffmpeg, then removes all temp chunk files and the manifest; the
single-chunk branch renames `temp_files[0]` to `outputPath`, raising
`IndexError` when no chunk exists. -/
def text_to_speech (tts : Nat → Str → Bool) (ffmpegOk : Bool) (names : Nat → Str)
    (text : Str) : TtsOutcome :=
  let chunks := chunksOf 5000 text
  let r := saveChunks tts names 0 chunks
  if r.2 = true then
    if 1 < r.1.length then
      { err := none, created := r.1, tempLeft := [], manifestCreated := true,
        manifestLeft := false, outputWritten := ffmpegOk, renamed := false,
        ranConcat := true }
    else
      match r.1 with
      | [] =>
        { err := some SynthErr.indexError, created := [], tempLeft := [],
          manifestCreated := false, manifestLeft := false, outputWritten := false,
          renamed := false, ranConcat := false }
      | f :: rest =>
        { err := none, created := f :: rest, tempLeft := [], manifestCreated := false,
          manifestLeft := false, outputWritten := true, renamed := true,
          ranConcat := false }
  else
    { err := some (SynthErr.ttsFailed r.1.length), created := r.1, tempLeft := r.1,
      manifestCreated := false, manifestLeft := false, outputWritten := false,
      renamed := false, ranConcat := false }

/-- Python `Path(filename).name`: the component after the last `/`,
ignoring trailing slashes. -/
def pyBasename (s : Str) : Str :=
  (((s.reverse).dropWhile (fun c => c = '/')).takeWhile (fun c => c ≠ '/')).reverse

/-- Index of the last `'.'` in a string, if any (Python `name.rfind('.')`
restricted to the found case). -/
def rfindDot : Str → Option Nat
  | [] => none
  | c :: rest =>
    match rfindDot rest with
    | some j => some (j + 1)
    | none => if c = '.' then some 0 else none

/-- Python `Path(filename).suffix`: the final extension of the last path
component, empty when there is no dot, the only dot is leading, or the
dot is final. -/
def pySuffix (filename : Str) : Str :=
  let nm := pyBasename filename
  match rfindDot nm with
  | some i => if 0 < i ∧ i < nm.length - 1 then nm.drop i else []
  | none => []

/-- Python `str.lower()` on ASCII. -/
def lowerStr (s : Str) : Str := s.map Char.toLower

/-- Embedding of `Path(file.filename).suffix.lower()` (src/main.py lines 70
and 119). -/
def fileExtension (filename : Str) : Str := lowerStr (pySuffix filename)

/-- The audio-extension allow-list (src/main.py lines 69 and 118). -/
def allowedExtensions : List Str :=
  [strOf (".wav"), strOf (".mp3"), strOf (".aiff"), strOf (".flac"),
   strOf (".ogg"), strOf (".m4a"), strOf (".mp4")]

/-- Embedding of `file.content_type.startswith('audio/')`. -/
def startsWithAudio (ct : Str) : Bool := (strOf ("audio/")).isPrefixOf ct

/-- Embedding of the upload validation shared by both endpoints
(src/main.py lines 69-72 and 118-121): returns `true` iff the request is
rejected with HTTP 400.  `contentType = none` models
`file.content_type is None`; Python `not file.content_type` is true for
`None` and for the empty string. -/
def rejects400 (contentType : Option Str) (filename : Str) : Bool :=
  match contentType with
  | none => true
  | some ct =>
    ct.isEmpty ||
      (!startsWithAudio ct && !(allowedExtensions.contains (fileExtension filename)))

/-- The rejection predicate exactly as claim C8 states it: reject iff BOTH
the content-type check and the extension check fail (a missing content type
fails the content-type check).  Stated from the claim's words, for
comparison with `rejects400`. -/
def rejectPerClaim (contentType : Option Str) (filename : Str) : Bool :=
  (match contentType with
   | none => true
   | some ct => !startsWithAudio ct) &&
    !(allowedExtensions.contains (fileExtension filename))

/-!  ## Lemmas -/

theorem splitSentences_ne_nil (s : Str) : splitSentences s ≠ [] := by
  induction s using splitSentences.induct with
  | case1 => simp [splitSentences]
  | case2 c => simp [splitSentences]
  | case3 c1 c2 rest hif ih => rw [splitSentences]; simp [if_pos hif]
  | case4 c1 c2 rest hif ih => rw [splitSentences]; simp [if_neg hif]

theorem joinWith_cons_of_ne_nil (sep : Str) (c : Char) (l : List Str) (h : l ≠ []) :
    joinWith sep ((c :: l.headI) :: l.tail) = c :: joinWith sep l := by
  match l with
  | [x] => simp [joinWith]
  | x :: y :: ys => simp [joinWith]

/-- Splitting on `". "` and rejoining with `". "` reconstructs the text. -/
theorem joinWith_splitSentences (s : Str) :
    joinWith sentenceDelim (splitSentences s) = s := by
  induction s using splitSentences.induct with
  | case1 => simp [splitSentences, joinWith]
  | case2 c => simp [splitSentences, joinWith]
  | case3 c1 c2 rest hif ih =>
    rw [splitSentences]
    simp only [if_pos hif]
    obtain ⟨h1, h2⟩ := hif
    subst h1; subst h2
    match hrest : splitSentences rest with
    | [] => exact absurd hrest (splitSentences_ne_nil rest)
    | t :: ts =>
      rw [hrest] at ih
      cases ts <;> simp_all [joinWith, sentenceDelim]
  | case4 c1 c2 rest hif ih =>
    rw [splitSentences]
    simp only [if_neg hif]
    rw [joinWith_cons_of_ne_nil _ _ _ (splitSentences_ne_nil _), ih]

/-- The split produces exactly one more part than there are delimiter
occurrences. -/
theorem length_splitSentences (s : Str) :
    (splitSentences s).length = countDelim s + 1 := by
  induction s using splitSentences.induct with
  | case1 => simp [splitSentences, countDelim]
  | case2 c => simp [splitSentences, countDelim]
  | case3 c1 c2 rest hif ih =>
    rw [splitSentences, countDelim]
    simp only [if_pos hif, List.length_cons, ih]
  | case4 c1 c2 rest hif ih =>
    rw [splitSentences, countDelim]
    simp only [if_neg hif, List.length_cons, List.length_tail, ih]
    omega

theorem countOcc_nil : countOcc [] = 0 := by simp [countOcc, sentenceDelim]

theorem countOcc_cons (c : Char) (rest : Str) :
    countOcc (c :: rest) =
      (if (c :: rest).take 2 = sentenceDelim then 1 else 0) + countOcc rest := by
  rw [countOcc, countOcc, List.tails_cons, List.filter_cons]
  by_cases h : (c :: rest).take 2 = sentenceDelim
  · rw [if_pos (decide_eq_true h), if_pos h, List.length_cons]
    omega
  · rw [if_neg (by simpa using h), if_neg h]
    omega

/-- The count used by the split recursion agrees with the substring
occurrence count. -/
theorem countDelim_eq_countOcc (s : Str) : countDelim s = countOcc s := by
  induction s using countDelim.induct with
  | case1 => simp [countDelim, countOcc_nil]
  | case2 c =>
    rw [countDelim, countOcc_cons, countOcc_nil]
    simp [sentenceDelim]
  | case3 c1 c2 rest hif ih =>
    obtain ⟨h1, h2⟩ := hif
    subst h1; subst h2
    rw [countDelim, if_pos ⟨rfl, rfl⟩, ih, countOcc_cons, countOcc_cons]
    simp [sentenceDelim]
    omega
  | case4 c1 c2 rest hif ih =>
    have hne : ¬((c1 :: c2 :: rest).take 2 = sentenceDelim) := by
      intro h
      simp only [sentenceDelim] at h
      simp at h
      exact hif ⟨h.1, h.2⟩
    rw [countDelim, if_neg hif, ih, countOcc_cons c1 (c2 :: rest), if_neg hne]
    omega

/-- The loop of `translate_text` keeps exactly the non-blank parts, each
replaced by its translation when the call succeeds and by itself when the
call fails. -/
theorem processSegments_eq_map_filter (tr : Str → Option Str) (l : List Str) :
    processSegments tr l =
      (l.filter (fun s => !(pyStrip s).isEmpty)).map (fun s => (tr s).getD s) := by
  induction l with
  | nil => simp [processSegments]
  | cons s rest ih =>
    rw [processSegments, List.filter_cons]
    by_cases h : pyStrip s = [] <;> simp [h, ih, List.isEmpty_iff]

theorem translatedSegments_eq_map (tr : Str → Option Str) (text : Str) :
    translatedSegments tr text =
      (keptSegments text).map (fun s => (tr s).getD s) := by
  rw [translatedSegments, keptSegments, processSegments_eq_map_filter]

/-- With the identity oracle and no blank parts, the loop is the identity. -/
theorem processSegments_id (l : List Str) (h : ∀ s ∈ l, pyStrip s ≠ []) :
    processSegments (fun s => some s) l = l := by
  induction l with
  | nil => simp [processSegments]
  | cons s rest ih =>
    rw [processSegments, if_neg (h s (by simp))]
    simp only [Option.getD_some]
    rw [ih (fun x hx => h x (by simp [hx]))]

theorem mem_chunksOf_length_le {cap : Nat} {s c : Str}
    (hc : c ∈ chunksOf cap s) : c.length ≤ cap := by
  induction s using chunksOf.induct cap with
  | case1 s h1 => rw [chunksOf, dif_pos h1] at hc; simp at hc
  | case2 h1 => rw [chunksOf, dif_neg h1, dif_pos rfl] at hc; simp at hc
  | case3 s h1 h2 ih =>
    rw [chunksOf, dif_neg h1, dif_neg h2] at hc
    rcases List.mem_cons.mp hc with h | h
    · subst h; simp [List.length_take]
    · exact ih h

theorem join_chunksOf (cap : Nat) (s : Str) (hcap : 0 < cap) :
    (chunksOf cap s).flatten = s := by
  induction s using chunksOf.induct cap with
  | case1 s h1 => omega
  | case2 h1 => rw [chunksOf, dif_neg h1, dif_pos rfl]; simp
  | case3 s h1 h2 ih =>
    rw [chunksOf, dif_neg h1, dif_neg h2]
    simp only [List.flatten_cons, ih, List.take_append_drop]

theorem length_chunksOf (cap : Nat) (s : Str) (hcap : 0 < cap) :
    (chunksOf cap s).length =
      if s.length = 0 then 0 else (s.length - 1) / cap + 1 := by
  induction s using chunksOf.induct cap with
  | case1 s h1 => omega
  | case2 h1 => rw [chunksOf, dif_neg h1, dif_pos rfl]; simp
  | case3 s h1 h2 ih =>
    rw [chunksOf, dif_neg h1, dif_neg h2]
    rw [List.length_cons, ih]
    have hs : 0 < s.length := List.length_pos.mpr h2
    simp only [List.length_drop]
    rw [if_neg (by omega : ¬s.length = 0)]
    by_cases hle : s.length ≤ cap
    · have hz : s.length - cap = 0 := by omega
      rw [hz]
      have hd : (s.length - 1) / cap = 0 := Nat.div_eq_of_lt (by omega)
      simp [hd]
    · rw [if_neg (by omega : ¬s.length - cap = 0)]
      have h1' : (s.length - 1) / cap = (s.length - 1 - cap) / cap + 1 :=
        Nat.div_eq_sub_div hcap (by omega)
      have h2' : s.length - cap - 1 = s.length - 1 - cap := by omega
      rw [h1', h2']

/-- When every save succeeded, one temp file was created per chunk. -/
theorem saveChunks_length (tts : Nat → Str → Bool) (names : Nat → Str) :
    ∀ (i : Nat) (cs : List Str), (saveChunks tts names i cs).2 = true →
      (saveChunks tts names i cs).1.length = cs.length := by
  intro i cs
  induction cs generalizing i with
  | nil => simp [saveChunks]
  | cons c cs2 ih =>
    intro h
    rw [saveChunks] at h ⊢
    by_cases ht : tts i c = true
    · rw [if_pos ht] at h ⊢
      simp only [List.length_cons]
      rw [ih (i + 1) h]
    · rw [if_neg ht] at h
      simp at h

theorem digitChar_toNat {d : Nat} (h : d < 10) : (digitChar d).toNat = 48 + d := by
  interval_cases d <;> decide

theorem natRepr_ne_nil (n : Nat) : natRepr n ≠ [] := by
  induction n using natRepr.induct with
  | case1 n h => rw [natRepr, if_pos h]; simp
  | case2 n h ih => rw [natRepr, if_neg h]; simp

theorem mem_natRepr_digit {n : Nat} {c : Char} (hc : c ∈ natRepr n) :
    ∃ d, d < 10 ∧ c = digitChar d := by
  induction n using natRepr.induct with
  | case1 n h =>
    rw [natRepr, if_pos h] at hc
    simp at hc
    exact ⟨n, h, hc⟩
  | case2 n h ih =>
    rw [natRepr, if_neg h] at hc
    rcases List.mem_append.mp hc with hm | hm
    · exact ih hm
    · simp at hm
      exact ⟨n % 10, Nat.mod_lt _ (by omega), hm⟩

theorem underscore_not_mem_natRepr (n : Nat) : '_' ∉ natRepr n := by
  intro h
  obtain ⟨d, hd, he⟩ := mem_natRepr_digit h
  have h1 : ('_').toNat = 48 + d := by rw [he] at *; exact digitChar_toNat hd
  have h2 : ('_').toNat = 95 := by decide
  omega

theorem natRepr_eq_small {n : Nat} (h : n < 10) : natRepr n = [digitChar n] := by
  rw [natRepr, if_pos h]

theorem natRepr_eq_big {n : Nat} (h : ¬n < 10) :
    natRepr n = natRepr (n / 10) ++ [digitChar (n % 10)] := by
  rw [natRepr, if_neg h]

theorem natRepr_inj : ∀ {m n : Nat}, natRepr m = natRepr n → m = n := by
  intro m
  induction m using Nat.strong_induction_on with
  | _ m ih =>
    intro n h
    by_cases hm : m < 10 <;> by_cases hn : n < 10
    · rw [natRepr_eq_small hm, natRepr_eq_small hn] at h
      have h1 : digitChar m = digitChar n := by injection h
      have h2 : (digitChar m).toNat = (digitChar n).toNat := by rw [h1]
      rw [digitChar_toNat hm, digitChar_toNat hn] at h2
      omega
    · rw [natRepr_eq_small hm, natRepr_eq_big hn] at h
      have hl := congrArg List.length h
      rw [List.length_append] at hl
      simp only [List.length_singleton] at hl
      have hz : natRepr (n / 10) = [] :=
        List.length_eq_zero.mp (by omega)
      exact absurd hz (natRepr_ne_nil _)
    · rw [natRepr_eq_big hm, natRepr_eq_small hn] at h
      have hl := congrArg List.length h
      rw [List.length_append] at hl
      simp only [List.length_singleton] at hl
      have hz : natRepr (m / 10) = [] :=
        List.length_eq_zero.mp (by omega)
      exact absurd hz (natRepr_ne_nil _)
    · rw [natRepr_eq_big hm, natRepr_eq_big hn] at h
      have h2 := congrArg List.reverse h
      simp only [List.reverse_append, List.reverse_cons, List.reverse_nil,
        List.nil_append, List.singleton_append] at h2
      have hx : digitChar (m % 10) = digitChar (n % 10) := by injection h2
      have hrev : (natRepr (m / 10)).reverse = (natRepr (n / 10)).reverse := by
        injection h2
      have ha : natRepr (m / 10) = natRepr (n / 10) := by
        have h3 := congrArg List.reverse hrev
        simpa using h3
      have hdiv : m / 10 = n / 10 :=
        ih (m / 10) (Nat.div_lt_self (by omega) (by omega)) ha
      have hx2 := congrArg Char.toNat hx
      rw [digitChar_toNat (Nat.mod_lt _ (by omega)),
        digitChar_toNat (Nat.mod_lt _ (by omega))] at hx2
      omega

/-- Splitting a string at an underscore is unambiguous when neither prefix
contains an underscore. -/
theorem underscore_split : ∀ (u v t1 t2 : Str), '_' ∉ u → '_' ∉ v →
    u ++ '_' :: t1 = v ++ '_' :: t2 → u = v ∧ t1 = t2 := by
  intro u
  induction u with
  | nil =>
    intro v t1 t2 hu hv h
    cases v with
    | nil =>
      simp only [List.nil_append] at h
      exact ⟨rfl, by injection h⟩
    | cons d v2 =>
      simp only [List.nil_append, List.cons_append] at h
      have hd : '_' = d := by injection h
      exact absurd (by rw [← hd] at *; exact List.mem_cons_self _ _) hv
  | cons c u2 ih =>
    intro v t1 t2 hu hv h
    cases v with
    | nil =>
      simp only [List.cons_append, List.nil_append] at h
      have hc : c = '_' := by injection h
      exact absurd (by rw [hc] at *; exact List.mem_cons_self _ _) hu
    | cons d v2 =>
      simp only [List.cons_append] at h
      have hcd : c = d := by injection h
      have ht : u2 ++ '_' :: t1 = v2 ++ '_' :: t2 := by injection h
      have hr := ih v2 t1 t2 (fun hm => hu (List.mem_cons_of_mem _ hm))
        (fun hm => hv (List.mem_cons_of_mem _ hm)) ht
      exact ⟨by rw [hcd, hr.1], hr.2⟩

theorem strOf_temp_chars : strOf ("temp_") = ['t', 'e', 'm', 'p', '_'] := by decide

theorem strOf_mp3_chars : strOf (".mp3") = ['.', 'm', 'p', '3'] := by decide

/-- Two service-path temp chunk filenames can only coincide when they come
from the same process id: the pid is recoverable from the name. -/
theorem tempName_srv_pid_inj {pid qid i j : Nat}
    (h : tempName_srv pid i = tempName_srv qid j) : pid = qid ∧ i = j := by
  rw [tempName_srv, tempName_srv, strOf_temp_chars, strOf_mp3_chars] at h
  simp only [List.cons_append, List.nil_append, List.cons.injEq, true_and,
    List.append_assoc, List.singleton_append] at h
  have hsplit := underscore_split (natRepr i) (natRepr j) _ _
    (underscore_not_mem_natRepr i) (underscore_not_mem_natRepr j) h
  have hij : i = j := natRepr_inj hsplit.1
  have htail := hsplit.2
  have hpq : natRepr pid = natRepr qid := by
    have := List.append_cancel_right htail
    exact this
  exact ⟨natRepr_inj hpq, hij⟩

theorem chunksOf_nil (cap : Nat) : chunksOf cap [] = [] := by
  by_cases h : cap = 0
  · rw [chunksOf, dif_pos h]
  · rw [chunksOf, dif_neg h, dif_pos rfl]

/-- A non-empty text of at most 5000 characters is a single chunk. -/
theorem chunksOf_small {s : Str} (h1 : s ≠ []) (h2 : s.length ≤ 5000) :
    chunksOf 5000 s = [s] := by
  rw [chunksOf, dif_neg (by norm_num), dif_neg h1]
  rw [List.take_of_length_le h2, List.drop_eq_nil_of_le h2, chunksOf_nil]

/-- A 5001-character text splits into a 5000-character chunk and a
1-character chunk. -/
theorem chunksOf_5001 :
    chunksOf 5000 (List.replicate 5001 'a') = [List.replicate 5000 'a', ['a']] := by
  have hne : (List.replicate 5001 'a' : Str) ≠ [] := by
    intro h
    have h2 := congrArg List.length h
    rw [List.length_replicate] at h2
    exact absurd h2 (by norm_num)
  rw [chunksOf, dif_neg (by norm_num : ¬(5000 = 0)), dif_neg hne]
  rw [List.take_replicate, List.drop_replicate]
  have hmin : min 5000 5001 = 5000 := by norm_num
  have hsub : 5001 - 5000 = 1 := by norm_num
  rw [hmin, hsub, List.replicate_one]
  rw [chunksOf_small (by intro h; exact absurd h (by simp))
    (by rw [List.length_singleton]; norm_num)]

theorem saveChunks_nil (tts : Nat → Str → Bool) (names : Nat → Str) (i : Nat) :
    saveChunks tts names i [] = ([], true) := rfl

/-- With an always-succeeding synthesis collaborator, both chunks of a
two-chunk run are saved. -/
theorem saveChunks_two_ok (names : Nat → Str) (c1 c2 : Str) :
    saveChunks (fun _ _ => true) names 0 [c1, c2] = ([names 0, names 1], true) := by
  simp [saveChunks]

/-- With a collaborator that raises from the second call on, a two-chunk
run stops after creating the first temp file. -/
theorem saveChunks_two_first_only (names : Nat → Str) (c1 c2 : Str) :
    saveChunks (fun i _ => i == 0) names 0 [c1, c2] = ([names 0], false) := by
  simp [saveChunks]

/-- Outcome of `text_to_speech` when some chunk save raised: the exception
propagates and the previously created chunk files remain on disk. -/
theorem text_to_speech_save_failed (tts : Nat → Str → Bool) (ff : Bool)
    (names : Nat → Str) (text : Str)
    (h : (saveChunks tts names 0 (chunksOf 5000 text)).2 = false) :
    text_to_speech tts ff names text =
      { err := some (SynthErr.ttsFailed
          (saveChunks tts names 0 (chunksOf 5000 text)).1.length),
        created := (saveChunks tts names 0 (chunksOf 5000 text)).1,
        tempLeft := (saveChunks tts names 0 (chunksOf 5000 text)).1,
        manifestCreated := false, manifestLeft := false, outputWritten := false,
        renamed := false, ranConcat := false } := by
  simp only [text_to_speech]
  rw [h]
  simp

/-- Outcome of `text_to_speech` on the multi-chunk path: manifest written,
ffmpeg invoked (its exit status `ff` ignored), all temp files removed. -/
theorem text_to_speech_multi (tts : Nat → Str → Bool) (ff : Bool)
    (names : Nat → Str) (text : Str)
    (h : (saveChunks tts names 0 (chunksOf 5000 text)).2 = true)
    (hlen : 1 < (saveChunks tts names 0 (chunksOf 5000 text)).1.length) :
    text_to_speech tts ff names text =
      { err := none, created := (saveChunks tts names 0 (chunksOf 5000 text)).1,
        tempLeft := [], manifestCreated := true, manifestLeft := false,
        outputWritten := ff, renamed := false, ranConcat := true } := by
  simp only [text_to_speech]
  rw [h]
  simp [hlen]

/-- Outcome of `text_to_speech` on the single-chunk path: the temp file is
renamed to `outputPath`. -/
theorem text_to_speech_single (tts : Nat → Str → Bool) (ff : Bool)
    (names : Nat → Str) (text : Str) (f : Str)
    (h : (saveChunks tts names 0 (chunksOf 5000 text)).2 = true)
    (hr : (saveChunks tts names 0 (chunksOf 5000 text)).1 = [f]) :
    text_to_speech tts ff names text =
      { err := none, created := [f], tempLeft := [], manifestCreated := false,
        manifestLeft := false, outputWritten := true, renamed := true,
        ranConcat := false } := by
  simp only [text_to_speech]
  rw [h, hr]
  simp

/-- Outcome of `text_to_speech` when no chunk exists: `temp_files[0]`
raises `IndexError`. -/
theorem text_to_speech_no_chunks (tts : Nat → Str → Bool) (ff : Bool)
    (names : Nat → Str) (text : Str)
    (h : (saveChunks tts names 0 (chunksOf 5000 text)).2 = true)
    (hr : (saveChunks tts names 0 (chunksOf 5000 text)).1 = []) :
    text_to_speech tts ff names text =
      { err := some SynthErr.indexError, created := [], tempLeft := [],
        manifestCreated := false, manifestLeft := false, outputWritten := false,
        renamed := false, ranConcat := false } := by
  simp only [text_to_speech]
  rw [h, hr]
  simp

/-!  ## Claim theorems -/

/-- Claim C1: for every input text and segment index, if the translation
call for that segment fails (`tr seg = none`) the output at that position
is the original segment verbatim; positions whose call succeeded carry the
translated value; and the overall `translate_text` call still returns the
rejoined text (it is total — per-segment failures never abort it). -/
theorem claim1_translate_segment_fallback (tr : Str → Option Str) (text : Str) :
    translate_text tr text = joinWith sentenceDelim (translatedSegments tr text) ∧
    (translatedSegments tr text).length = (keptSegments text).length ∧
    (∀ (i : Nat) (seg : Str), (keptSegments text).get? i = some seg →
      (tr seg = none → (translatedSegments tr text).get? i = some seg) ∧
      (∀ t, tr seg = some t → (translatedSegments tr text).get? i = some t)) := by
  have hmap := translatedSegments_eq_map tr text
  refine ⟨rfl, by rw [hmap, List.length_map], ?_⟩
  intro i seg hseg
  have h1 : (translatedSegments tr text).get? i = some ((tr seg).getD seg) := by
    rw [hmap, List.get?_map, hseg]
    rfl
  constructor
  · intro hn
    rw [hn] at h1
    simpa using h1
  · intro t ht
    rw [ht] at h1
    simpa using h1

theorem claim1_witness :
    (keptSegments (strOf ("a. b"))).get? 1 = some (strOf ("b")) ∧
    (translatedSegments
        (fun s => if s = strOf ("b") then none else some (s.map Char.toUpper))
        (strOf ("a. b"))).get? 1 = some (strOf ("b")) :=
  ⟨by decide,
    ((claim1_translate_segment_fallback
        (fun s => if s = strOf ("b") then none else some (s.map Char.toUpper))
        (strOf ("a. b"))).2.2 1 (strOf ("b")) (by decide)).1 (by decide)⟩

/-- Claim C2 (amended): after a `text_to_speech` call, no concatenation
manifest ever remains, and the temporary chunk files are all removed
exactly when every chunk save succeeded (this includes the single-chunk,
empty-text and failed-concatenation exits); when a chunk save raises, the
chunk files created before the failure remain on disk. -/
theorem claim2_synthesis_cleanup_amended (tts : Nat → Str → Bool) (ff : Bool)
    (names : Nat → Str) (text : Str) :
    (text_to_speech tts ff names text).manifestLeft = false ∧
    (text_to_speech tts ff names text).tempLeft =
      (if (saveChunks tts names 0 (chunksOf 5000 text)).2 = true then []
       else (saveChunks tts names 0 (chunksOf 5000 text)).1) := by
  by_cases h : (saveChunks tts names 0 (chunksOf 5000 text)).2 = true
  · rw [if_pos h]
    rcases hr : (saveChunks tts names 0 (chunksOf 5000 text)).1 with _ | ⟨f, rest⟩
    · rw [text_to_speech_no_chunks tts ff names text h hr]
      exact ⟨rfl, rfl⟩
    · rcases rest with _ | ⟨g, rest2⟩
      · rw [text_to_speech_single tts ff names text f h hr]
        exact ⟨rfl, rfl⟩
      · have hlen : 1 < (saveChunks tts names 0 (chunksOf 5000 text)).1.length := by
          rw [hr]
          simp
        rw [text_to_speech_multi tts ff names text h hlen]
        exact ⟨rfl, rfl⟩
  · rw [if_neg h]
    rw [text_to_speech_save_failed tts ff names text (by simpa using h)]
    exact ⟨rfl, rfl⟩

/-- Claim C2 counterexample: a two-chunk text whose second chunk save
raises leaves the first temporary chunk file on disk, violating the
unconditional-cleanup claim. -/
theorem claim2_counterexample :
    (text_to_speech (fun i _ => i == 0) true tempName_cli
        (List.replicate 5001 'a')).tempLeft = [tempName_cli 0] ∧
    [tempName_cli 0] ≠ ([] : List Str) := by
  have hsave : saveChunks (fun i _ => i == 0) tempName_cli 0
      (chunksOf 5000 (List.replicate 5001 'a')) = ([tempName_cli 0], false) := by
    rw [chunksOf_5001, saveChunks_two_first_only]
  constructor
  · rw [text_to_speech_save_failed _ _ _ _ (by rw [hsave])]
    rw [hsave]
  · simp

/-- Claim C3 (amended): in a multi-chunk run in which every chunk save
succeeded, a concatenation failure (`ffmpegOk = false`) still removes
every temporary chunk file and the manifest, but the call does NOT report
the failure: the ffmpeg exit status is ignored, the call returns normally
(`err = none`), and no artifact is written at `outputPath`. -/
theorem claim3_concat_failure_amended (tts : Nat → Str → Bool)
    (names : Nat → Str) (text : Str)
    (hmulti : 1 < (chunksOf 5000 text).length)
    (hok : (saveChunks tts names 0 (chunksOf 5000 text)).2 = true) :
    text_to_speech tts false names text =
      { err := none, created := (saveChunks tts names 0 (chunksOf 5000 text)).1,
        tempLeft := [], manifestCreated := true, manifestLeft := false,
        outputWritten := false, renamed := false, ranConcat := true } := by
  have hlen : 1 < (saveChunks tts names 0 (chunksOf 5000 text)).1.length := by
    rw [saveChunks_length tts names 0 _ hok]
    exact hmulti
  exact text_to_speech_multi tts false names text hok hlen

theorem claim3_witness :
    1 < (chunksOf 5000 (List.replicate 5001 'a')).length ∧
    (text_to_speech (fun _ _ => true) false tempName_cli
        (List.replicate 5001 'a')).err = none := by
  have hm : 1 < (chunksOf 5000 (List.replicate 5001 'a')).length := by
    rw [chunksOf_5001]
    exact Nat.one_lt_two
  have hok : (saveChunks (fun _ _ => true) tempName_cli 0
      (chunksOf 5000 (List.replicate 5001 'a'))).2 = true := by
    rw [chunksOf_5001, saveChunks_two_ok]
  have h := claim3_concat_failure_amended (fun _ _ => true) tempName_cli
    (List.replicate 5001 'a') hm hok
  exact ⟨hm, by rw [h]⟩

/-- Claim C3 counterexample: with two chunks and a failing concatenation,
the call returns normally (`err = none`) — it does not report the failure
to its caller — and no output artifact exists. -/
theorem claim3_counterexample :
    (text_to_speech (fun _ _ => true) false tempName_cli
        (List.replicate 5001 'a')).err = none ∧
    (text_to_speech (fun _ _ => true) false tempName_cli
        (List.replicate 5001 'a')).outputWritten = false := by
  have hok : (saveChunks (fun _ _ => true) tempName_cli 0
      (chunksOf 5000 (List.replicate 5001 'a'))).2 = true := by
    rw [chunksOf_5001, saveChunks_two_ok]
  have hlen : 1 < (saveChunks (fun _ _ => true) tempName_cli 0
      (chunksOf 5000 (List.replicate 5001 'a'))).1.length := by
    rw [chunksOf_5001, saveChunks_two_ok]
    exact Nat.one_lt_two
  rw [text_to_speech_multi _ _ _ _ hok hlen]
  exact ⟨rfl, rfl⟩

/-- Claim C4: for every text and positive cap, the synthesis chunking
yields chunks of at most `cap` characters whose lengths sum to the text
length and whose in-order concatenation reconstructs the text; a
12000-character text with the hard-coded cap 5000 yields exactly 3 chunks. -/
theorem claim4_split_for_synthesis (cap : Nat) (text : Str) (hcap : 0 < cap) :
    (∀ c ∈ chunksOf cap text, c.length ≤ cap) ∧
    ((chunksOf cap text).map List.length).sum = text.length ∧
    (chunksOf cap text).flatten = text ∧
    (text.length = 12000 → (chunksOf 5000 text).length = 3) := by
  refine ⟨fun c hc => mem_chunksOf_length_le hc, ?_,
    join_chunksOf cap text hcap, ?_⟩
  · have h2 := congrArg List.length (join_chunksOf cap text hcap)
    rw [List.length_flatten] at h2
    exact h2
  · intro h12
    rw [length_chunksOf 5000 text (by norm_num), h12]
    norm_num

theorem claim4_witness :
    (0 : Nat) < 5000 ∧
    (chunksOf 5000 (List.replicate 12000 'a')).length = 3 :=
  ⟨by norm_num,
    (claim4_split_for_synthesis 5000 (List.replicate 12000 'a')
      (by norm_num)).2.2.2 (by rw [List.length_replicate])⟩

/-- Claim C5 (amended): for a text with N occurrences of the literal
delimiter `". "`, the translation split produces at most N+1 processed
segments, none of which is empty or whitespace-only; the split is exactly
the one induced by the literal delimiter `". "` (rejoining with `". "`
reconstructs the text).  Segments are NOT trimmed: they may retain
leading/trailing whitespace. -/
theorem claim5_split_for_translation_amended (text : Str) :
    (keptSegments text).length ≤ countOcc text + 1 ∧
    (∀ s ∈ keptSegments text, pyStrip s ≠ []) ∧
    joinWith sentenceDelim (splitSentences text) = text := by
  refine ⟨?_, ?_, joinWith_splitSentences text⟩
  · calc (keptSegments text).length
        ≤ (splitSentences text).length := List.length_filter_le _ _
      _ = countDelim text + 1 := length_splitSentences text
      _ = countOcc text + 1 := by rw [countDelim_eq_countOcc]
  · intro s hs
    have hp := List.of_mem_filter hs
    simpa [List.isEmpty_iff] using hp

/-- Claim C5 counterexample: the kept segments are not trimmed — for
`"a.  b"` the second produced segment is `" b"`, which differs from its
own stripped form. -/
theorem claim5_counterexample :
    keptSegments (strOf ("a.  b")) = [strOf ("a"), strOf (" b")] ∧
    pyStrip (strOf (" b")) ≠ strOf (" b") := by decide

theorem claim5_witness :
    strOf ("a") ∈ keptSegments (strOf ("a. b")) ∧ pyStrip (strOf ("a")) ≠ [] :=
  ⟨by decide,
    (claim5_split_for_translation_amended (strOf ("a. b"))).2.1
      (strOf ("a")) (by decide)⟩

/-- Claim C6 (amended): service-path temp chunk filenames
(`temp_<i>_<pid>.mp3`) determine their process id and chunk index, so runs
in distinct processes can never produce the same name; CLI-path filenames
(`temp_<i>.mp3`) contain only the chunk index, so every pair of concurrent
CLI runs produces identical names. -/
theorem claim6_temp_name_uniqueness_amended :
    (∀ pid qid i j, tempName_srv pid i = tempName_srv qid j →
      pid = qid ∧ i = j) ∧
    (∀ pid qid i, cliRunTempName pid i = cliRunTempName qid i) :=
  ⟨fun _ _ _ _ h => tempName_srv_pid_inj h, fun _ _ _ => rfl⟩

/-- Claim C6 counterexample: two concurrent CLI runs with distinct process
ids produce the same temporary filename for chunk 0 — the CLI naming
includes no process or run identifier. -/
theorem claim6_counterexample :
    cliRunTempName 100 0 = cliRunTempName 200 0 ∧ (100 : Nat) ≠ 200 :=
  ⟨rfl, by decide⟩

theorem claim6_witness :
    tempName_srv 7 3 = tempName_srv 7 3 ∧ ((7 : Nat) = 7 ∧ (3 : Nat) = 3) :=
  ⟨rfl, claim6_temp_name_uniqueness_amended.1 7 7 3 3 rfl⟩

/-- Claim C7: a non-empty text of at most 5000 characters whose single
chunk save succeeds yields exactly one chunk; the single temporary file
becomes the final artifact via the rename branch, with no concatenation
step and no manifest file created. -/
theorem claim7_single_chunk_rename (tts : Nat → Str → Bool) (ff : Bool)
    (names : Nat → Str) (text : Str) (h1 : text ≠ [])
    (h2 : text.length ≤ 5000) (h3 : tts 0 text = true) :
    chunksOf 5000 text = [text] ∧
    text_to_speech tts ff names text =
      { err := none, created := [names 0], tempLeft := [],
        manifestCreated := false, manifestLeft := false, outputWritten := true,
        renamed := true, ranConcat := false } := by
  have hch := chunksOf_small h1 h2
  have hsave : saveChunks tts names 0 (chunksOf 5000 text) = ([names 0], true) := by
    rw [hch, saveChunks, if_pos h3]
    simp [saveChunks]
  exact ⟨hch,
    text_to_speech_single tts ff names text (names 0) (by rw [hsave]) (by rw [hsave])⟩

theorem claim7_witness :
    (strOf ("hi") ≠ [] ∧ (strOf ("hi")).length ≤ 5000) ∧
    (text_to_speech (fun _ _ => true) true tempName_cli (strOf ("hi"))).renamed
      = true := by
  have h := claim7_single_chunk_rename (fun _ _ => true) true tempName_cli
    (strOf ("hi")) (by decide) (by decide) rfl
  exact ⟨⟨by decide, by decide⟩, by rw [h.2]⟩

/-- Claim C8 (amended): an upload is rejected with 400 iff its declared
content type is missing or empty, or the content type does not start with
`audio/` AND the lowercased filename extension is not in the allow-list.
(When a non-empty content type is declared this coincides with the
claim's "both checks fail" rule; a missing/empty content type causes
rejection even when the extension passes.) -/
theorem claim8_upload_validation_amended (ct : Option Str) (fn : Str) :
    rejects400 ct fn = true ↔
      (ct = none ∨ ct = some [] ∨
        (∃ s, ct = some s ∧ startsWithAudio s = false ∧
          allowedExtensions.contains (fileExtension fn) = false)) := by
  cases ct with
  | none => simp [rejects400]
  | some s =>
    by_cases he : s = []
    · subst he
      simp [rejects400]
    · have hne : s.isEmpty = false := by
        simp [List.isEmpty_iff, he]
      by_cases ha : startsWithAudio s = true
      · simp [rejects400, hne, ha, he]
      · have ha2 : startsWithAudio s = false := by
          simpa using ha
        by_cases hb : allowedExtensions.contains (fileExtension fn) = true
        · simp [rejects400, hne, ha2, hb, he]
        · have hb2 : allowedExtensions.contains (fileExtension fn) = false := by
            simpa using hb
          simp [rejects400, hne, ha2, hb2, he]

/-- Claim C8 counterexample: an upload with a missing content type and
filename `clip.wav` passes the extension check (so the claim says it must
not be rejected), yet the code rejects it with 400 (`not file.content_type`
short-circuits before the extension is consulted). -/
theorem claim8_counterexample :
    rejects400 none (strOf ("clip.wav")) = true ∧
    rejectPerClaim none (strOf ("clip.wav")) = false := by decide

/-- Claim C9: the translation stage rejoins per-segment results with the
same `". "` delimiter used to split: an uppercasing stub turns
`"Hello world. This is a test."` into `"HELLO WORLD. THIS IS A TEST."`,
and an identity stub returns any text with no empty or whitespace-only
parts unchanged. -/
theorem claim9_rejoin_delimiter (text : Str) :
    translate_text (fun s => some (s.map Char.toUpper))
        (strOf ("Hello world. This is a test.")) =
      strOf ("HELLO WORLD. THIS IS A TEST.") ∧
    ((∀ s ∈ splitSentences text, pyStrip s ≠ []) →
      translate_text (fun s => some s) text = text) := by
  constructor
  · decide
  · intro h
    rw [translate_text, translatedSegments, processSegments_id _ h,
      joinWith_splitSentences]

theorem claim9_witness :
    (∀ s ∈ splitSentences (strOf ("ab. cd")), pyStrip s ≠ []) ∧
    translate_text (fun s => some s) (strOf ("ab. cd")) = strOf ("ab. cd") :=
  ⟨by decide, (claim9_rejoin_delimiter (strOf ("ab. cd"))).2 (by decide)⟩

/-- Claim C10: on empty input the synthesis stage produces zero chunks and
creates zero temporary files, then raises `IndexError` on `temp_files[0]`,
so no artifact is written at `outputPath`; a `text_to_speech` call that
returns normally implies the text was non-empty. -/
theorem claim10_empty_text_fails (tts : Nat → Str → Bool) (ff : Bool)
    (names : Nat → Str) :
    chunksOf 5000 ([] : Str) = [] ∧
    text_to_speech tts ff names [] =
      { err := some SynthErr.indexError, created := [], tempLeft := [],
        manifestCreated := false, manifestLeft := false, outputWritten := false,
        renamed := false, ranConcat := false } ∧
    (∀ text : Str, (text_to_speech tts ff names text).err = none → text ≠ []) := by
  have hout : text_to_speech tts ff names [] =
      { err := some SynthErr.indexError, created := [], tempLeft := [],
        manifestCreated := false, manifestLeft := false, outputWritten := false,
        renamed := false, ranConcat := false } := by
    refine text_to_speech_no_chunks tts ff names [] ?_ ?_ <;>
      rw [chunksOf_nil, saveChunks_nil]
  refine ⟨chunksOf_nil 5000, hout, ?_⟩
  intro text herr
  intro hnil
  subst hnil
  rw [hout] at herr
  simp at herr

theorem claim10_witness :
    (text_to_speech (fun _ _ => true) true tempName_cli (strOf ("a"))).err
        = none ∧
    strOf ("a") ≠ [] := by
  have hsave : saveChunks (fun _ _ => true) tempName_cli 0
      (chunksOf 5000 (strOf ("a"))) = ([tempName_cli 0], true) := by
    rw [chunksOf_small (by decide) (by decide), saveChunks]
    simp [saveChunks]
  have herr : (text_to_speech (fun _ _ => true) true tempName_cli
      (strOf ("a"))).err = none := by
    rw [text_to_speech_single _ _ _ _ (tempName_cli 0) (by rw [hsave]) (by rw [hsave])]
  exact ⟨herr,
    (claim10_empty_text_fails (fun _ _ => true) true tempName_cli).2.2
      (strOf ("a")) herr⟩

end LinguaWave
